import Mathlib

/-!
Verification of the Canadian Aircraft Registry dashboard
(`aircraft_dashboard.py`) against its design specification.

The script is shallowly embedded: a pandas row becomes a `Record` whose
nullable cells are `Option` values (a pandas `NaN`/`NA` is `none`), a
dataframe becomes a `List Record`, and each stage of the script (the
loader's merge and province restriction, the sidebar default bounds, the
sequential filter pipeline of lines 115-137, the `replace("null", NA)` of
line 139, and the chart aggregations) becomes an executable function.
Numeric cells are modelled as integers: the three always-filtered columns
are cast with `int(...)` by the script itself, and all range comparisons
are inclusive order comparisons, so integer arithmetic is faithful.
-/

namespace AircraftDashboard

/-- One row of the joined registry table (`df` after `load_data`).
Every cell that pandas can hold as `NaN`/`NA` is an `Option`;
`pd.to_numeric(..., errors="coerce")` has already been applied to the
numeric columns. Engines, year and age are integer-valued columns, so
they are `Option Int`; the weight column is float-typed (line 44), so it
is modelled as exact rationals, faithful to float comparison, min/max
and `int()` truncation on the registry's decimal values. -/
structure Record where
  province : Option String
  aircraftCategory : Option String
  typeOfOwner : Option String
  engineCategory : Option String
  country : Option String
  numberOfEngines : Option Int
  yearOfManufacture : Option Int
  aircraftAge : Option Int
  weight : Option ℚ
  regYear : Option Int
  commonName : Option String
  modelName : Option String
  manufacturerName : Option String
deriving DecidableEq

/-- The sidebar state consumed by the filter pipeline: the five
multiselect widgets, the three mandatory numeric ranges, the optional
weight range (`None` exactly when no weight column was detected), and the
free-text search box. -/
structure FilterSpec where
  provinceSel : List String
  categorySel : List String
  ownerSel : List String
  engineSel : List String
  countrySel : List String
  engRange : Int × Int
  yearRange : Int × Int
  ageRange : Int × Int
  weightRange : Option (Int × Int)
  search : String
deriving DecidableEq

/-- The closed 13-item enumeration `CANADA_PROVINCES` (lines 19-23). -/
def CANADA_PROVINCES : List String :=
  ["British Columbia", "Alberta", "Saskatchewan", "Manitoba", "Ontario", "Quebec",
   "New Brunswick", "Nova Scotia", "Prince Edward Island", "Newfoundland and Labrador",
   "Yukon", "Northwest Territories", "Nunavut"]

/-- `series.isin(sel)` for one cell: a missing cell is never a member. -/
def isinPass (v : Option String) (sel : List String) : Bool :=
  match v with
  | none => false
  | some s => sel.contains s

/-- Net effect of one guarded multiselect filter on one cell: the script
skips the filter entirely when the selection is empty (`if province:` etc.,
lines 116-125), so an empty selection passes every row. -/
def selPass (v : Option String) (sel : List String) : Bool :=
  sel.isEmpty || isinPass v sel

/-- One guarded multiselect filter stage (lines 116-125):
`if sel: flt = flt[flt[col].isin(sel)]`. -/
def selFilter (sel : List String) (get : Record → Option String) (t : List Record) :
    List Record :=
  if sel.isEmpty then t else t.filter (fun r => isinPass (get r) sel)

/-- `series.between(lo, hi)` for one cell (lines 127-133): inclusive on
both ends, and a missing cell compares `False`. -/
def betweenPass (v : Option Int) (range : Int × Int) : Bool :=
  match v with
  | none => false
  | some x => decide (range.1 ≤ x ∧ x ≤ range.2)

/-- `series.between` for the float-typed weight column (line 133): the
widget bounds are integers (line 80 casts them with `int()`), compared
against the float cells. Inclusive, `False` on missing. -/
def betweenPassW (v : Option ℚ) (range : Int × Int) : Bool :=
  match v with
  | none => false
  | some x => decide ((range.1 : ℚ) ≤ x ∧ x ≤ (range.2 : ℚ))

/-- Python `int()` on a float: truncation toward zero, as applied to the
observed weight min/max at line 80. -/
def intTrunc (q : ℚ) : Int :=
  if 0 ≤ q then q.floor else q.ceil

/-- Case-insensitive match of one pattern character against one text
character. `str.contains(pat, case=False)` hands `pat` to the `re`
module (pandas default `regex=True`), where `.` matches any character
except a newline; any other character is compared caselessly. We embed
exactly this fragment of the regular-expression language: literal
characters plus the metacharacter `.`. -/
def reCharMatch (p t : Char) : Bool :=
  if p == '.' then !(t == '\n') else p.toLower == t.toLower

/-- Does the pattern match starting exactly at the head of the text? -/
def reMatchHere : List Char → List Char → Bool
  | [], _ => true
  | _ :: _, [] => false
  | p :: ps, t :: ts => reCharMatch p t && reMatchHere ps ts

/-- `re.search` semantics: the pattern matches at some position of the
text. This is what `str.contains` tests. -/
def reSearch (pat : List Char) : List Char → Bool
  | [] => reMatchHere pat []
  | t :: ts => reMatchHere pat (t :: ts) || reSearch pat ts

/-- `series.str.contains(pat, case=False, na=False)` for one cell:
a missing cell yields `False` (`na=False`), never an error. -/
def strContainsCI (pat : String) (v : Option String) : Bool :=
  match v with
  | none => false
  | some s => reSearch pat.toList s.toList

/-- The search mask of line 136: common name OR model name matches. -/
def searchPass (q : String) (r : Record) : Bool :=
  strContainsCI q r.commonName || strContainsCI q r.modelName

/-- Specification-side notion of "contains the query as a
case-insensitive substring": after lowering both, the query occurs as a
contiguous segment of the text. Stated from the spec words, to be
compared with the source-derived `reSearch`. -/
def isSubstrCI (pat text : String) : Prop :=
  ∃ pre post, text.toList.map Char.toLower = pre ++ pat.toList.map Char.toLower ++ post

/-- Boolean test equivalent to `isSubstrCI` (proved below): `reSearch`
with every pattern character taken literally. -/
def ciMatchHere : List Char → List Char → Bool
  | [], _ => true
  | _ :: _, [] => false
  | p :: ps, t :: ts => (p.toLower == t.toLower) && ciMatchHere ps ts

/-- Boolean substring search used to decide `isSubstrCI`. -/
def ciSubstrTest (pat : List Char) : List Char → Bool
  | [] => ciMatchHere pat []
  | t :: ts => ciMatchHere pat (t :: ts) || ciSubstrTest pat ts

/-- The characters the `re` module treats specially. The embedding models
only patterns whose sole metacharacter is `.`; the claims about other
patterns are stated under the `noMeta` guard. -/
def regexSpecials : List Char :=
  ['.', '^', '$', '*', '+', '?', '[', ']', '(', ')', '\\', '|', '\x7b', '\x7d']

/-- The query uses no regular-expression metacharacter. -/
def noMeta (q : String) : Bool :=
  q.toList.all (fun c => !(regexSpecials.contains c))

/-- The filter pipeline of lines 115-137, stage for stage: the five
guarded multiselect filters, the combined mandatory mask
`between(engines) & between(year) & between(age)`, the weight range when
a weight column was detected, and the search mask when the search box is
non-empty (`if search:`). The `replace` of line 139 is NOT part of this
function; see `pipeline`. -/
def applyFilters (t : List Record) (s : FilterSpec) : List Record :=
  let f1 := selFilter s.provinceSel Record.province t
  let f2 := selFilter s.categorySel Record.aircraftCategory f1
  let f3 := selFilter s.ownerSel Record.typeOfOwner f2
  let f4 := selFilter s.engineSel Record.engineCategory f3
  let f5 := selFilter s.countrySel Record.country f4
  let f6 := f5.filter (fun r =>
    betweenPass r.numberOfEngines s.engRange &&
    betweenPass r.yearOfManufacture s.yearRange &&
    betweenPass r.aircraftAge s.ageRange)
  let f7 := match s.weightRange with
    | none => f6
    | some wr => f6.filter (fun r => betweenPassW r.weight wr)
  if s.search.isEmpty then f7 else f7.filter (fun r => searchPass s.search r)

/-- The conjunction of all the per-row predicates of the pipeline, in the
same order; `applyFilters` is proved equal to a single `filter` by it. -/
def passAll (s : FilterSpec) (r : Record) : Bool :=
  selPass r.province s.provinceSel &&
  selPass r.aircraftCategory s.categorySel &&
  selPass r.typeOfOwner s.ownerSel &&
  selPass r.engineCategory s.engineSel &&
  selPass r.country s.countrySel &&
  (betweenPass r.numberOfEngines s.engRange &&
   betweenPass r.yearOfManufacture s.yearRange &&
   betweenPass r.aircraftAge s.ageRange) &&
  (match s.weightRange with
   | none => true
   | some wr => betweenPassW r.weight wr) &&
  (s.search.isEmpty || searchPass s.search r)

/-- `replace("null", pd.NA)` on one string cell. -/
def normNull (v : Option String) : Option String :=
  match v with
  | none => none
  | some s => if s = "null" then none else some s

/-- Line 139, `flt = flt.replace("null", pd.NA)`, applied to one row: it
touches every column, but the numeric columns were already coerced with
`pd.to_numeric` in the loader and cannot hold the string `"null"`. -/
def replaceNull (r : Record) : Record :=
  { r with
    province := normNull r.province
    aircraftCategory := normNull r.aircraftCategory
    typeOfOwner := normNull r.typeOfOwner
    engineCategory := normNull r.engineCategory
    country := normNull r.country
    commonName := normNull r.commonName
    modelName := normNull r.modelName
    manufacturerName := normNull r.manufacturerName }

/-- No string cell of the row is the literal `"null"`. -/
def noNullLit (r : Record) : Bool :=
  (r.province != some "null") && (r.aircraftCategory != some "null") &&
  (r.typeOfOwner != some "null") && (r.engineCategory != some "null") &&
  (r.country != some "null") && (r.commonName != some "null") &&
  (r.modelName != some "null") && (r.manufacturerName != some "null")

/-- Lines 115-139 in full: the value bound to `flt` that every later
line of the script (charts, tables, export) reads. -/
def pipeline (t : List Record) (s : FilterSpec) : List Record :=
  (applyFilters t s).map replaceNull

/-- Line 46, `df = df[df["Province (English)"].isin(CANADA_PROVINCES)]`:
the loader's final restriction of the joined table. -/
def provinceRestrict (t : List Record) : List Record :=
  t.filter (fun r => isinPass r.province CANADA_PROVINCES)

/-- Minimum of a numeric column, skipping missing cells as
`series.min()` does (`skipna=True`); `none` when every cell is missing,
the case in which `int(series.min())` raises `ValueError` on `NaN`. -/
def colMin {α : Type} [LinearOrder α] (get : Record → Option α) (t : List Record) :
    Option α :=
  match t.filterMap get with
  | [] => none
  | x :: xs => some (xs.foldl min x)

/-- Maximum of a numeric column, skipping missing cells. -/
def colMax {α : Type} [LinearOrder α] (get : Record → Option α) (t : List Record) :
    Option α :=
  match t.filterMap get with
  | [] => none
  | x :: xs => some (xs.foldl max x)

/-- `(series.min(), series.max())`; `none` models the `ValueError`
raised by the `int(...)` cast when the column is entirely missing. -/
def colRange {α : Type} [LinearOrder α] (get : Record → Option α) (t : List Record) :
    Option (α × α) :=
  match colMin get t, colMax get t with
  | some lo, some hi => some (lo, hi)
  | _, _ => none

/-- The default numeric filter bounds computed at startup (lines 61-84):
observed min/max of engines, year and age — integer columns, where the
`int()` cast is exact — plus, when a weight column was detected (`hw`),
the float weight min/max truncated toward zero by `int()` (line 80).
`none` models the script aborting with a `ValueError` before any widget
is built. -/
def defaultBounds (t : List Record) (hw : Bool) :
    Option ((Int × Int) × (Int × Int) × (Int × Int) × Option (Int × Int)) :=
  match colRange Record.numberOfEngines t, colRange Record.yearOfManufacture t,
        colRange Record.aircraftAge t with
  | some er, some yr, some ar =>
    if hw then
      match colRange Record.weight t with
      | some wr => some (er, yr, ar, some (intTrunc wr.1, intTrunc wr.2))
      | none => none
    else some (er, yr, ar, none)
  | _, _, _ => none

/-- The `FilterSpec` holding the sidebar's default state: no multiselect
selection, every numeric range at its observed min/max, empty search. -/
def defaultSpec (t : List Record) (hw : Bool) : Option FilterSpec :=
  (defaultBounds t hw).map (fun b =>
    { provinceSel := [], categorySel := [], ownerSel := [], engineSel := [],
      countrySel := [], engRange := b.1, yearRange := b.2.1,
      ageRange := b.2.2.1, weightRange := b.2.2.2, search := "" })

/-- The distinct elements of a list in order of first occurrence: the
head is kept and every later copy of it is dropped from the deduplicated
tail. -/
def dedupFirst {α : Type} [BEq α] : List α → List α
  | [] => []
  | x :: xs => x :: (dedupFirst xs).filter (fun y => !(y == x))

/-- Count-descending comparison on (value, count) pairs. -/
def cntGe (a b : String × Nat) : Prop := b.2 ≤ a.2

instance : DecidableRel cntGe := fun a b => inferInstanceAs (Decidable (b.2 ≤ a.2))

instance : IsTotal (String × Nat) cntGe := ⟨fun a b => le_total b.2 a.2⟩

instance : IsTrans (String × Nat) cntGe := ⟨fun _ _ _ h1 h2 => le_trans h2 h1⟩

/-- `series.value_counts()`: frequency of each distinct non-missing
value, sorted by count descending; the sort is modelled as a stable
(insertion) sort of the first-occurrence-ordered counts, so ties keep
first-encountered order. -/
def valueCounts (l : List String) : List (String × Nat) :=
  List.insertionSort cntGe ((dedupFirst l).map (fun v => (v, l.count v)))

/-- `series.value_counts().head(n)`. -/
def topN (n : Nat) (l : List String) : List (String × Nat) :=
  (valueCounts l).take n

/-- Strict leaderboard order: larger count first, ties resolved by the
position of the value in first-encountered order (`idx`). -/
def tieOrd (idx : String × Nat → Nat) (a b : String × Nat) : Prop :=
  b.2 < a.2 ∨ (a.2 = b.2 ∧ idx a < idx b)

/-- What the specification asks of a Top-10 leaderboard over the value
list `vals`: exactly `min 10 #distinct` rows; each row a genuine
(value, frequency) pair; rows ordered by count descending with ties in
first-encountered order; every excluded row's count at most every
included row's count; and the returned counts summing to at most the
number of values. -/
def topTenGood (vals : List String) (out : List (String × Nat)) : Prop :=
  out.length = min 10 (dedupFirst vals).length ∧
  (∀ pr ∈ out, pr.1 ∈ vals ∧ pr.2 = vals.count pr.1) ∧
  out.Pairwise (tieOrd (fun pr => (dedupFirst vals).indexOf pr.1)) ∧
  (∀ b ∈ (valueCounts vals).drop 10, ∀ a ∈ out, b.2 ≤ a.2) ∧
  (out.map Prod.snd).sum ≤ vals.length

/-- Line 155: the Top-10 manufacturer leaderboard (missing names are
dropped by `value_counts`). -/
def manuChart (flt : List Record) : List (String × Nat) :=
  topN 10 (flt.filterMap Record.manufacturerName)

/-- Line 164: the Top-10 model leaderboard. -/
def modelChart (flt : List Record) : List (String × Nat) :=
  topN 10 (flt.filterMap Record.modelName)

/-- Line 193: per-province counts for the province bar chart. -/
def provChart (flt : List Record) : List (String × Nat) :=
  valueCounts (flt.filterMap Record.province)

/-- The categorical share computed by the pie charts (lines 173, 180):
occurrences of each distinct non-missing value of the field. -/
def distribution (get : Record → Option String) (flt : List Record) :
    List (String × Nat) :=
  (dedupFirst (flt.filterMap get)).map (fun v => (v, (flt.filterMap get).count v))

/-- Line 187: the data handed to the age histogram,
`flt.dropna(subset=["Aircraft Age"])` projected to the age column. -/
def ageHistData (flt : List Record) : List Int :=
  flt.filterMap Record.aircraftAge

/-- Ascending key order for per-year group counts. -/
def yearLe (a b : Int × Nat) : Prop := a.1 ≤ b.1

instance : DecidableRel yearLe := fun a b => inferInstanceAs (Decidable (a.1 ≤ b.1))

/-- Lexicographic key order for (year, owner type) group counts. -/
def yearOwnerLe (a b : (Int × String) × Nat) : Prop :=
  a.1.1 < b.1.1 ∨ (a.1.1 = b.1.1 ∧ a.1.2 ≤ b.1.2)

instance : DecidableRel yearOwnerLe :=
  fun a b => inferInstanceAs (Decidable (a.1.1 < b.1.1 ∨ (a.1.1 = b.1.1 ∧ a.1.2 ≤ b.1.2)))

/-- Line 202: `flt.dropna(subset=["Reg Year"]).groupby("Reg Year").size()`,
keys sorted ascending (`groupby` default `sort=True`). -/
def groupCountYear (flt : List Record) : List (Int × Nat) :=
  let ys := flt.filterMap Record.regYear
  List.insertionSort yearLe ((dedupFirst ys).map (fun y => (y, ys.count y)))

/-- Line 210: group by (registration year, owner type); `groupby` drops
rows whose owner type is missing as well (default `dropna=True`). -/
def groupCountYearOwner (flt : List Record) : List ((Int × String) × Nat) :=
  let ks := flt.filterMap (fun r =>
    match r.regYear, r.typeOfOwner with
    | some y, some o => some (y, o)
    | _, _ => none)
  List.insertionSort yearOwnerLe ((dedupFirst ks).map (fun k => (k, ks.count k)))

/-- The eight sidebar chart checkboxes (lines 100-107). -/
structure ChartToggles where
  topManu : Bool
  topModel : Bool
  catDist : Bool
  ownerType : Bool
  ageHist : Bool
  provBar : Bool
  regYear : Bool
  ownerTrend : Bool
deriving DecidableEq

/-- The data each chart receives, `none` when the chart is omitted. -/
structure DashboardOutput where
  topManu : Option (List (String × Nat))
  topModel : Option (List (String × Nat))
  catDist : Option (List (String × Nat) × Nat)
  ownerDist : Option (List (String × Nat) × Nat)
  ageHist : Option (List Int)
  provBar : Option (List (String × Nat))
  regYearChart : Option (List (Int × Nat))
  ownerTrend : Option (List ((Int × String) × Nat))
deriving DecidableEq

/-- The chart section (lines 153-214) over an already-filtered table:
the first six charts are guarded by `toggle and not flt.empty`; the two
yearly line charts compute their group counts first and render only when
the grouped result is non-empty. The pie charts carry `total = len(flt)`
as their centre annotation. -/
def dashboard (tog : ChartToggles) (flt : List Record) : DashboardOutput where
  topManu := if tog.topManu && !flt.isEmpty then some (manuChart flt) else none
  topModel := if tog.topModel && !flt.isEmpty then some (modelChart flt) else none
  catDist :=
    if tog.catDist && !flt.isEmpty then
      some (distribution Record.aircraftCategory flt, flt.length)
    else none
  ownerDist :=
    if tog.ownerType && !flt.isEmpty then
      some (distribution Record.typeOfOwner flt, flt.length)
    else none
  ageHist := if tog.ageHist && !flt.isEmpty then some (ageHistData flt) else none
  provBar := if tog.provBar && !flt.isEmpty then some (provChart flt) else none
  regYearChart :=
    if tog.regYear && !(groupCountYear flt).isEmpty then some (groupCountYear flt)
    else none
  ownerTrend :=
    if tog.ownerTrend && !(groupCountYearOwner flt).isEmpty then
      some (groupCountYearOwner flt)
    else none

/-- The whole reactive pass: sidebar state in, chart data out. The charts
read `flt` as left by line 139, i.e. after the `"null"` normalization. -/
def dashboardOf (tog : ChartToggles) (t : List Record) (s : FilterSpec) :
    DashboardOutput :=
  dashboard tog (pipeline t s)

/-- One row of the `carsownr` sheet: the join key plus the remaining
owner columns as (column name, value) pairs. -/
structure OwnerRow where
  registrationMark : String
  ownerPayload : List (String × String)
deriving DecidableEq

/-- One row of the `carscurr` sheet. -/
structure CurrRow where
  mark : String
  currPayload : List (String × String)
deriving DecidableEq

/-- One row of `curr.merge(owners, ..., how="left")`: the current
registration row together with the owner row it joined to, if any. -/
structure MergedRow where
  curr : CurrRow
  owner : Option OwnerRow
deriving DecidableEq

/-- An owner-derived column of a merged row: missing whenever the row
found no owner match. -/
def MergedRow.ownerField (m : MergedRow) (name : String) : Option String :=
  match m.owner with
  | none => none
  | some o => o.ownerPayload.lookup name

/-- The merge result contributed by one current-registration row: one
output row per matching owner row, or a single owner-less row when no
owner mark matches. -/
def mergeRow (owners : List OwnerRow) (c : CurrRow) : List MergedRow :=
  match owners.filter (fun o => o.registrationMark == c.mark) with
  | [] => [⟨c, none⟩]
  | m :: ms => (m :: ms).map (fun o => ⟨c, some o⟩)

/-- Line 34, `curr.merge(owners, left_on="Mark",
right_on="Registration Mark", how="left")`. -/
def mergeLeft (curr : List CurrRow) (owners : List OwnerRow) : List MergedRow :=
  curr.flatMap (mergeRow owners)

/-- A fully populated sample row used by the concrete witnesses. -/
def baseRec : Record where
  province := some "Ontario"
  aircraftCategory := some "Aeroplane"
  typeOfOwner := some "Individual"
  engineCategory := some "Piston"
  country := some "Canada"
  numberOfEngines := some 1
  yearOfManufacture := some 2000
  aircraftAge := some 5
  weight := none
  regYear := some 2001
  commonName := some "Boeing 737"
  modelName := some "737-200"
  manufacturerName := some "Boeing"

/-- A spec with no selections, very wide ranges and no search: every
fully populated row passes it. -/
def sWide : FilterSpec where
  provinceSel := []
  categorySel := []
  ownerSel := []
  engineSel := []
  countrySel := []
  engRange := (-1000, 1000)
  yearRange := (0, 3000)
  ageRange := (-1000, 1000)
  weightRange := none
  search := ""

/-- Two-row table for the default-spec counterexample: one complete row
and one row whose age is missing; both provinces are in the enumeration. -/
def tDefault : List Record := [baseRec, { baseRec with aircraftAge := none }]

/-- The spec `defaultSpec` yields on `tDefault` (checked by `decide`). -/
def sDefault : FilterSpec where
  provinceSel := []
  categorySel := []
  ownerSel := []
  engineSel := []
  countrySel := []
  engRange := (1, 1)
  yearRange := (2000, 2000)
  ageRange := (5, 5)
  weightRange := none
  search := ""

/-- Row with fractional weight 10.5. -/
def rWlo : Record := { baseRec with weight := some (mkRat 21 2) }

/-- Row with fractional weight 20.7, fully populated. -/
def rWhi : Record := { baseRec with weight := some (mkRat 207 10) }

/-- Two fully populated rows with weights 10.5 and 20.7: the observed
weight span is [10.5, 20.7], which line 80 truncates to (10, 20). -/
def tWeight : List Record := [rWlo, rWhi]

/-- The spec `defaultSpec` yields on `tWeight` with a detected weight
column: weight bounds are the `int()`-truncated (10, 20). -/
def sWeight : FilterSpec where
  provinceSel := []
  categorySel := []
  ownerSel := []
  engineSel := []
  countrySel := []
  engRange := (1, 1)
  yearRange := (2000, 2000)
  ageRange := (5, 5)
  weightRange := some (10, 20)
  search := ""

/-- Rows with ages 5, missing and 20: the spec's range-filter example. -/
def tAges : List Record :=
  [baseRec, { baseRec with aircraftAge := none }, { baseRec with aircraftAge := some 20 }]

/-- Spec whose age range is the full observed span [0, 20]. -/
def sAges : FilterSpec :=
  { sWide with engRange := (0, 9), yearRange := (1900, 2100), ageRange := (0, 20) }

/-- Record for the regex counterexample: common name `"Ab"`. -/
def recDot : Record := { baseRec with commonName := some "Ab", modelName := none }

/-- Table containing a valid-province row and a row whose province is
outside the enumeration. -/
def tProv : List Record := [baseRec, { baseRec with province := some "Atlantis" }]

/-- A row whose manufacturer cell is the literal string `"null"`. -/
def tNull : List Record := [{ baseRec with manufacturerName := some "null" }]

/-- All chart checkboxes on. -/
def allOn : ChartToggles := ⟨true, true, true, true, true, true, true, true⟩

/-- The owner row of the merge scenario. -/
def ownerABCD : OwnerRow := ⟨"C-ABCD", [("Type of Owner", "Individual")]⟩

/-- Current-registration row whose mark has an owner match. -/
def currABCD : CurrRow := ⟨"C-ABCD", [("Model Name", "737-200")]⟩

/-- Current-registration row whose mark has no owner match. -/
def currWXYZ : CurrRow := ⟨"C-WXYZ", []⟩

theorem selFilter_eq (sel : List String) (get : Record → Option String) (t : List Record) :
    selFilter sel get t = t.filter (fun r => selPass (get r) sel) := by
  unfold selFilter selPass
  cases h : sel.isEmpty <;> simp [h]

theorem applyFilters_eq_filter (t : List Record) (s : FilterSpec) :
    applyFilters t s = t.filter (passAll s) := by
  unfold applyFilters
  simp only [selFilter_eq]
  cases hw : s.weightRange <;> cases hs : s.search.isEmpty <;>
    · simp only [hs, List.filter_filter, Bool.false_eq_true, if_false, if_true]
      refine List.filter_congr ?_
      intro r _
      simp [passAll, hw, hs, Bool.and_assoc, Bool.and_comm, Bool.and_left_comm]

theorem applyFilters_sublist (t : List Record) (s : FilterSpec) :
    (applyFilters t s).Sublist t := by
  rw [applyFilters_eq_filter]
  exact List.filter_sublist t

theorem mem_applyFilters {t : List Record} {s : FilterSpec} {r : Record} :
    r ∈ applyFilters t s ↔ r ∈ t ∧ passAll s r = true := by
  rw [applyFilters_eq_filter, List.mem_filter]

theorem applyFilters_idem (t : List Record) (s : FilterSpec) :
    applyFilters (applyFilters t s) s = applyFilters t s := by
  rw [applyFilters_eq_filter t s, applyFilters_eq_filter, List.filter_filter]
  refine List.filter_congr ?_
  intro r _
  simp

/-- C1: for every table `T` and filter spec `S`, `apply(T,S)` is a
sublist of `T` (so a subset: no rows are invented), and applying the same
spec a second time changes nothing. -/
theorem filter_apply_subset_idem (t : List Record) (s : FilterSpec) :
    (applyFilters t s).Sublist t ∧
      applyFilters (applyFilters t s) s = applyFilters t s :=
  ⟨applyFilters_sublist t s, applyFilters_idem t s⟩

theorem betweenPass_true {v : Option Int} {range : Int × Int}
    (h : betweenPass v range = true) :
    ∃ x, v = some x ∧ range.1 ≤ x ∧ x ≤ range.2 := by
  cases v with
  | none => exact absurd h (by simp [betweenPass])
  | some x => exact ⟨x, rfl, of_decide_eq_true h⟩

theorem betweenPassW_true {v : Option ℚ} {range : Int × Int}
    (h : betweenPassW v range = true) :
    ∃ x, v = some x ∧ (range.1 : ℚ) ≤ x ∧ x ≤ (range.2 : ℚ) := by
  cases v with
  | none => exact absurd h (by simp [betweenPassW])
  | some x => exact ⟨x, rfl, of_decide_eq_true h⟩

/-- C3: a record survives the filter pipeline only if each mandatory
numeric range field (engines, year, age) is non-missing and lies within
the inclusive bounds, and likewise for the weight field whenever a weight
range is active; in particular a record with a missing value for such a
field is excluded no matter how wide the range is. -/
theorem range_filter_requires_present (t : List Record) (s : FilterSpec) (r : Record)
    (h : r ∈ applyFilters t s) :
    (∃ x, r.numberOfEngines = some x ∧ s.engRange.1 ≤ x ∧ x ≤ s.engRange.2) ∧
    (∃ x, r.yearOfManufacture = some x ∧ s.yearRange.1 ≤ x ∧ x ≤ s.yearRange.2) ∧
    (∃ x, r.aircraftAge = some x ∧ s.ageRange.1 ≤ x ∧ x ≤ s.ageRange.2) ∧
    (∀ lo hi, s.weightRange = some (lo, hi) →
      ∃ x, r.weight = some x ∧ (lo : ℚ) ≤ x ∧ x ≤ (hi : ℚ)) := by
  have hp := (mem_applyFilters.mp h).2
  unfold passAll at hp
  simp only [Bool.and_eq_true] at hp
  obtain ⟨⟨⟨⟨⟨⟨⟨-, -⟩, -⟩, -⟩, -⟩, ⟨⟨he, hy⟩, ha⟩⟩, hw⟩, -⟩ := hp
  refine ⟨betweenPass_true he, betweenPass_true hy, betweenPass_true ha, ?_⟩
  intro lo hi heq
  rw [heq] at hw
  exact betweenPassW_true hw

/-- Witness for C3: on ages 5, missing, 20 with the full span [0, 20],
the age-5 record passes and the theorem yields its in-range age; the
missing-age record is indeed dropped (`applyFilters` keeps rows 1 and 3). -/
theorem range_filter_requires_present_witness :
    applyFilters tAges sAges = [baseRec, { baseRec with aircraftAge := some 20 }] ∧
      baseRec ∈ applyFilters tAges sAges ∧
      ((∃ x, baseRec.numberOfEngines = some x ∧
          sAges.engRange.1 ≤ x ∧ x ≤ sAges.engRange.2) ∧
       (∃ x, baseRec.yearOfManufacture = some x ∧
          sAges.yearRange.1 ≤ x ∧ x ≤ sAges.yearRange.2) ∧
       (∃ x, baseRec.aircraftAge = some x ∧
          sAges.ageRange.1 ≤ x ∧ x ≤ sAges.ageRange.2) ∧
       (∀ lo hi, sAges.weightRange = some (lo, hi) →
          ∃ x, baseRec.weight = some x ∧ (lo : ℚ) ≤ x ∧ x ≤ (hi : ℚ))) :=
  ⟨by decide, by decide,
    range_filter_requires_present tAges sAges baseRec (by decide)⟩

/-- C7: every record of the loader's province-restricted output, and
every record of any table filtered from it, carries a province belonging
to the closed 13-item enumeration. -/
theorem province_invariant (t : List Record) (s : FilterSpec) (r : Record)
    (h : r ∈ provinceRestrict t ∨ r ∈ applyFilters (provinceRestrict t) s) :
    ∃ p, r.province = some p ∧ p ∈ CANADA_PROVINCES := by
  have hr : r ∈ provinceRestrict t := by
    cases h with
    | inl h => exact h
    | inr h => exact (applyFilters_sublist _ _).subset h
  have hpass := (List.mem_filter.mp hr).2
  cases hp : r.province with
  | none => rw [hp] at hpass; exact absurd hpass (by simp [isinPass])
  | some p =>
    rw [hp] at hpass
    unfold isinPass at hpass
    exact ⟨p, rfl, by simpa using hpass⟩

/-- Witness for C7: the enumeration-valued row of `tProv` survives both
the loader restriction and a subsequent filtering pass, and its province
is certified to lie in `CANADA_PROVINCES`. -/
theorem province_invariant_witness :
    baseRec ∈ applyFilters (provinceRestrict tProv) sWide ∧
      (∃ p, baseRec.province = some p ∧ p ∈ CANADA_PROVINCES) :=
  ⟨by decide,
    province_invariant tProv sWide baseRec (Or.inr (by decide))⟩

theorem noDot_of_noMeta {q : String} (h : noMeta q = true) : '.' ∉ q.toList := by
  intro hmem
  have := (List.all_eq_true.mp h) '.' hmem
  simp [regexSpecials] at this

theorem reMatchHere_iff :
    ∀ (pat : List Char), '.' ∉ pat → ∀ (t : List Char),
      (reMatchHere pat t = true ↔
        ∃ post, t.map Char.toLower = pat.map Char.toLower ++ post)
  | [], _, t => by simp [reMatchHere]
  | _ :: _, _, [] => by simp [reMatchHere]
  | p :: ps, hd, c :: cs => by
    have hp : p ≠ '.' := fun h => hd (h ▸ List.mem_cons_self _ _)
    have hps : '.' ∉ ps := fun h => hd (List.mem_cons_of_mem _ h)
    have ih := reMatchHere_iff ps hps cs
    simp only [reMatchHere, reCharMatch, Bool.and_eq_true, List.map_cons,
      List.cons_append, List.cons.injEq]
    rw [if_neg (by simp [hp])]
    constructor
    · rintro ⟨hc, hrest⟩
      obtain ⟨post, hpost⟩ := ih.mp hrest
      exact ⟨post, (beq_iff_eq.mp hc).symm, hpost⟩
    · rintro ⟨post, hc, hpost⟩
      exact ⟨beq_iff_eq.mpr hc.symm, ih.mpr ⟨post, hpost⟩⟩

theorem reSearch_iff (pat : List Char) (hd : '.' ∉ pat) :
    ∀ (t : List Char),
      (reSearch pat t = true ↔
        ∃ pre post, t.map Char.toLower = pre ++ pat.map Char.toLower ++ post)
  | [] => by
    simp only [reSearch]
    rw [reMatchHere_iff pat hd]
    constructor
    · rintro ⟨post, h⟩
      exact ⟨[], post, by simpa using h⟩
    · rintro ⟨pre, post, h⟩
      simp only [List.map_nil, List.append_assoc] at h
      obtain ⟨h1, h2⟩ := (List.append_eq_nil).mp h.symm
      obtain ⟨h3, h4⟩ := (List.append_eq_nil).mp h2
      exact ⟨[], by simp [h3]⟩
  | c :: cs => by
    simp only [reSearch, Bool.or_eq_true]
    rw [reMatchHere_iff pat hd, reSearch_iff pat hd cs]
    constructor
    · rintro (⟨post, h⟩ | ⟨pre, post, h⟩)
      · exact ⟨[], post, by simpa using h⟩
      · exact ⟨Char.toLower c :: pre, post, by simp [h]⟩
    · rintro ⟨pre, post, h⟩
      cases pre with
      | nil => exact Or.inl ⟨post, by simpa using h⟩
      | cons d pre' =>
        simp only [List.map_cons, List.cons_append, List.cons.injEq] at h
        exact Or.inr ⟨pre', post, h.2⟩

theorem strContainsCI_iff {q : String} (hd : '.' ∉ q.toList) (v : Option String) :
    (strContainsCI q v = true ↔ ∃ s, v = some s ∧ isSubstrCI q s) := by
  cases v with
  | none => simp [strContainsCI]
  | some s =>
    unfold strContainsCI isSubstrCI
    rw [reSearch_iff q.toList hd s.toList]
    simp

/-- C5 (amended): for every non-empty query built from literal
characters only (no regular-expression metacharacter), a record passes
the search filter iff its common name or its model name contains the
query as a case-insensitive substring, and a missing field never
matches. The restriction is forced: `str.contains` treats the query as a
regular expression (pandas default `regex=True`). -/
theorem search_substring_of_noMeta (q : String) (r : Record)
    (_hq : q ≠ "") (hm : noMeta q = true) :
    (searchPass q r = true ↔
      (∃ s, r.commonName = some s ∧ isSubstrCI q s) ∨
      (∃ s, r.modelName = some s ∧ isSubstrCI q s)) := by
  have hd : '.' ∉ q.toList := noDot_of_noMeta hm
  unfold searchPass
  rw [Bool.or_eq_true, strContainsCI_iff hd, strContainsCI_iff hd]

/-- Witness for C5: the query `"boe"` (no metacharacters) matches
`baseRec`, whose common name is `"Boeing 737"`, and a capitalized
variant of the query matches as well. -/
theorem search_substring_witness :
    (searchPass "boe" baseRec = true ↔
      (∃ s, baseRec.commonName = some s ∧ isSubstrCI "boe" s) ∨
      (∃ s, baseRec.modelName = some s ∧ isSubstrCI "boe" s)) ∧
    searchPass "boe" baseRec = true ∧ searchPass "BoE" baseRec = true :=
  ⟨search_substring_of_noMeta "boe" baseRec (by decide) (by decide),
   by decide, by decide⟩

/-- Counterexample to C5 as stated: the query `"."` passes the search
filter on a record whose common name is `"Ab"` and whose model name is
missing, yet `"."` is not a substring of `"ab"`; the query is interpreted
as a regular expression, not a literal substring. -/
theorem search_regex_dot_cex :
    searchPass "." recDot = true ∧
      ¬ ((∃ s, recDot.commonName = some s ∧ isSubstrCI "." s) ∨
         (∃ s, recDot.modelName = some s ∧ isSubstrCI "." s)) := by
  refine ⟨by decide, ?_⟩
  rintro (⟨s, hs, hsub⟩ | ⟨s, hs, hsub⟩)
  · rw [show recDot.commonName = some "Ab" from rfl] at hs
    injection hs with hs
    subst hs
    obtain ⟨pre, post, hmap⟩ := hsub
    have hmem : '.' ∈ (("Ab" : String).toList.map Char.toLower) := by
      rw [hmap]; simp
    exact absurd hmem (by decide)
  · rw [show recDot.modelName = (none : Option String) from rfl] at hs
    exact Option.noConfusion hs

theorem foldl_min_le {α : Type} [LinearOrder α] (xs : List α) (a : α) :
    xs.foldl min a ≤ a ∧ ∀ y ∈ xs, xs.foldl min a ≤ y := by
  induction xs generalizing a with
  | nil => exact ⟨le_refl a, by simp⟩
  | cons b bs ih =>
    obtain ⟨h1, h2⟩ := ih (min a b)
    refine ⟨h1.trans (min_le_left a b), ?_⟩
    intro y hy
    rcases List.mem_cons.mp hy with rfl | hy
    · exact h1.trans (min_le_right a y)
    · exact h2 y hy

theorem foldl_max_ge {α : Type} [LinearOrder α] (xs : List α) (a : α) :
    a ≤ xs.foldl max a ∧ ∀ y ∈ xs, y ≤ xs.foldl max a := by
  induction xs generalizing a with
  | nil => exact ⟨le_refl a, by simp⟩
  | cons b bs ih =>
    obtain ⟨h1, h2⟩ := ih (max a b)
    refine ⟨(le_max_left a b).trans h1, ?_⟩
    intro y hy
    rcases List.mem_cons.mp hy with rfl | hy
    · exact (le_max_right a y).trans h1
    · exact h2 y hy

theorem colMin_le {α : Type} [LinearOrder α] {get : Record → Option α}
    {t : List Record} {lo : α} {r : Record} {x : α}
    (h : colMin get t = some lo) (hr : r ∈ t)
    (hx : get r = some x) : lo ≤ x := by
  have hmem : x ∈ t.filterMap get := List.mem_filterMap.mpr ⟨r, hr, hx⟩
  unfold colMin at h
  cases hfm : t.filterMap get with
  | nil => rw [hfm] at h; exact Option.noConfusion h
  | cons c cs =>
    rw [hfm] at h hmem
    injection h with h
    subst h
    rcases List.mem_cons.mp hmem with rfl | hmem
    · exact (foldl_min_le cs x).1
    · exact (foldl_min_le cs c).2 x hmem

theorem colMax_ge {α : Type} [LinearOrder α] {get : Record → Option α}
    {t : List Record} {hi : α} {r : Record} {x : α}
    (h : colMax get t = some hi) (hr : r ∈ t)
    (hx : get r = some x) : x ≤ hi := by
  have hmem : x ∈ t.filterMap get := List.mem_filterMap.mpr ⟨r, hr, hx⟩
  unfold colMax at h
  cases hfm : t.filterMap get with
  | nil => rw [hfm] at h; exact Option.noConfusion h
  | cons c cs =>
    rw [hfm] at h hmem
    injection h with h
    subst h
    rcases List.mem_cons.mp hmem with rfl | hmem
    · exact (foldl_max_ge cs x).1
    · exact (foldl_max_ge cs c).2 x hmem

theorem colRange_some {α : Type} [LinearOrder α] {get : Record → Option α}
    {t : List Record} {pr : α × α} (h : colRange get t = some pr) :
    colMin get t = some pr.1 ∧ colMax get t = some pr.2 := by
  unfold colRange at h
  cases hmin : colMin get t with
  | none => simp [hmin] at h
  | some lo =>
    cases hmax : colMax get t with
    | none => simp [hmin, hmax] at h
    | some hi =>
      simp only [hmin, hmax, Option.some.injEq] at h
      subst h
      exact ⟨rfl, rfl⟩

theorem betweenPass_default {get : Record → Option Int} {t : List Record}
    {range : Int × Int} {r : Record} (hlo : colMin get t = some range.1)
    (hhi : colMax get t = some range.2) (hr : r ∈ t) :
    betweenPass (get r) range = (get r).isSome := by
  cases hx : get r with
  | none => simp [betweenPass]
  | some x =>
    simp only [betweenPass, Option.isSome_some]
    exact decide_eq_true ⟨colMin_le hlo hr hx, colMax_ge hhi hr hx⟩

theorem defaultBounds_inv {t : List Record} {hw : Bool}
    {b : (Int × Int) × (Int × Int) × (Int × Int) × Option (Int × Int)}
    (h : defaultBounds t hw = some b) :
    colRange Record.numberOfEngines t = some b.1 ∧
    colRange Record.yearOfManufacture t = some b.2.1 ∧
    colRange Record.aircraftAge t = some b.2.2.1 ∧
    (hw = true → ∃ wr : ℚ × ℚ, colRange Record.weight t = some wr ∧
      b.2.2.2 = some (intTrunc wr.1, intTrunc wr.2)) ∧
    (hw = false → b.2.2.2 = none) := by
  unfold defaultBounds at h
  cases he : colRange Record.numberOfEngines t with
  | none => simp [he] at h
  | some er =>
  cases hy : colRange Record.yearOfManufacture t with
  | none => simp [he, hy] at h
  | some yr =>
  cases ha : colRange Record.aircraftAge t with
  | none => simp [he, hy, ha] at h
  | some ar =>
  cases hw with
  | false =>
    simp only [he, hy, ha, Bool.false_eq_true, if_false, Option.some.injEq] at h
    subst h
    exact ⟨rfl, rfl, rfl, by simp, fun _ => rfl⟩
  | true =>
    cases hwr : colRange Record.weight t with
    | none => simp [he, hy, ha, hwr] at h
    | some wr =>
      simp only [he, hy, ha, if_true, hwr, Option.some.injEq] at h
      subst h
      exact ⟨rfl, rfl, rfl, fun _ => ⟨wr, rfl, rfl⟩, by simp⟩

/-- C2 (amended): the default spec (all selections empty, every range at
its observed default, empty search) is NOT the identity on the loader's
table. Without a weight column it returns exactly the rows whose three
mandatory numeric fields are non-missing; with a weight column it
additionally keeps only the rows whose weight is non-missing and lies in
the `int()`-truncated observed weight span `[int(min), int(max)]` — so a
non-missing fractional weight above `int(max)` is dropped as well. The
province restriction needs no re-application since the Loader bakes it
in. -/
theorem applyFilters_defaultSpec (t : List Record) (hw : Bool) (s : FilterSpec)
    (h : defaultSpec t hw = some s) :
    (hw = false → applyFilters t s = t.filter (fun r =>
      r.numberOfEngines.isSome && r.yearOfManufacture.isSome &&
      r.aircraftAge.isSome)) ∧
    (hw = true → ∃ wlo whi : ℚ, colMin Record.weight t = some wlo ∧
      colMax Record.weight t = some whi ∧
      applyFilters t s = t.filter (fun r =>
        r.numberOfEngines.isSome && r.yearOfManufacture.isSome &&
        r.aircraftAge.isSome &&
        betweenPassW r.weight (intTrunc wlo, intTrunc whi))) := by
  unfold defaultSpec at h
  obtain ⟨b, hb, hs⟩ := Option.map_eq_some'.mp h
  obtain ⟨he, hy, ha, hwt, hwf⟩ := defaultBounds_inv hb
  obtain ⟨he1, he2⟩ := colRange_some he
  obtain ⟨hy1, hy2⟩ := colRange_some hy
  obtain ⟨ha1, ha2⟩ := colRange_some ha
  have hse : ("" : String).isEmpty = true := rfl
  cases hw with
  | false =>
    refine ⟨fun _ => ?_, fun hc => Bool.noConfusion hc⟩
    have hwnone := hwf rfl
    rw [applyFilters_eq_filter]
    refine List.filter_congr ?_
    intro r hr
    subst hs
    simp only [passAll, selPass, List.isEmpty_nil, Bool.true_or, Bool.true_and, hse,
      hwnone, Bool.and_true]
    rw [betweenPass_default he1 he2 hr, betweenPass_default hy1 hy2 hr,
      betweenPass_default ha1 ha2 hr]
  | true =>
    refine ⟨fun hc => Bool.noConfusion hc, fun _ => ?_⟩
    obtain ⟨wr, hwr, hbw⟩ := hwt rfl
    obtain ⟨hw1, hw2⟩ := colRange_some hwr
    refine ⟨wr.1, wr.2, hw1, hw2, ?_⟩
    rw [applyFilters_eq_filter]
    refine List.filter_congr ?_
    intro r hr
    subst hs
    simp only [passAll, selPass, List.isEmpty_nil, Bool.true_or, Bool.true_and, hse,
      hbw, Bool.and_true]
    rw [betweenPass_default he1 he2 hr, betweenPass_default hy1 hy2 hr,
      betweenPass_default ha1 ha2 hr]

/-- Counterexample to C2 as stated, in both regimes. Without a weight
column: on a two-row table whose provinces both lie in the enumeration
(so "T restricted to the 13 provinces" is T itself), the default spec
drops the row whose age is missing. With a weight column: on two fully
populated rows with float weights 10.5 and 20.7, line 80 truncates the
observed span to (10, 20), so the default spec drops the non-missing
weight-20.7 row — the result is not T, and not even the all-non-missing
restriction of T. -/
theorem defaultSpec_not_identity_cex :
    (defaultSpec tDefault false = some sDefault ∧
      provinceRestrict tDefault = tDefault ∧
      applyFilters tDefault sDefault ≠ tDefault) ∧
    (defaultSpec tWeight true = some sWeight ∧
      provinceRestrict tWeight = tWeight ∧
      rWhi.weight = some (mkRat 207 10) ∧
      applyFilters tWeight sWeight = [rWlo]) := by decide

/-- Witness for the amended C2: on `tDefault` (no weight column) the
default spec keeps exactly the rows with the three numeric fields
present; on `tWeight` (weight column detected, observed span
[10.5, 20.7]) it keeps exactly the rows whose weight passes the
truncated bounds `(intTrunc 10.5, intTrunc 20.7) = (10, 20)`. -/
theorem applyFilters_defaultSpec_witness :
    (defaultSpec tDefault false = some sDefault ∧
      applyFilters tDefault sDefault = tDefault.filter (fun r =>
        r.numberOfEngines.isSome && r.yearOfManufacture.isSome &&
        r.aircraftAge.isSome)) ∧
    (defaultSpec tWeight true = some sWeight ∧
      ∃ wlo whi : ℚ, colMin Record.weight tWeight = some wlo ∧
        colMax Record.weight tWeight = some whi ∧
        applyFilters tWeight sWeight = tWeight.filter (fun r =>
          r.numberOfEngines.isSome && r.yearOfManufacture.isSome &&
          r.aircraftAge.isSome &&
          betweenPassW r.weight (intTrunc wlo, intTrunc whi))) :=
  ⟨⟨by decide, (applyFilters_defaultSpec tDefault false sDefault (by decide)).1 rfl⟩,
   ⟨by decide, (applyFilters_defaultSpec tWeight true sWeight (by decide)).2 rfl⟩⟩

theorem colRange_isSome {α : Type} [LinearOrder α] (get : Record → Option α)
    (t : List Record) :
    (colRange get t).isSome = t.any (fun r => (get r).isSome) := by
  unfold colRange colMin colMax
  cases hfm : t.filterMap get with
  | nil =>
    have hall := List.filterMap_eq_nil_iff.mp hfm
    have h2 : (t.any fun r => (get r).isSome) = false := by
      rw [List.any_eq_false]
      intro r hr
      simp [hall r hr]
    simp [h2]
  | cons c cs =>
    have hc : c ∈ t.filterMap get := by rw [hfm]; exact List.mem_cons_self c cs
    obtain ⟨r, hr, hget⟩ := List.mem_filterMap.mp hc
    have h2 : (t.any fun r => (get r).isSome) = true := by
      rw [List.any_eq_true]
      exact ⟨r, hr, by simp [hget]⟩
    simp [h2]

/-- C10: the startup computation of the default numeric bounds succeeds
exactly when each of engines, year and age — and weight, when a weight
column was detected — has at least one non-missing value in the
province-restricted table; otherwise (for instance on an empty table)
`int(series.min())` meets `NaN` and raises instead of degrading to a
disabled filter, modelled by `defaultBounds` returning `none`. -/
theorem defaultBounds_requires_nonmissing (t : List Record) (hw : Bool) :
    (defaultBounds t hw).isSome =
      ((t.any fun r => r.numberOfEngines.isSome) &&
       (t.any fun r => r.yearOfManufacture.isSome) &&
       (t.any fun r => r.aircraftAge.isSome) &&
       (!hw || (t.any fun r => r.weight.isSome))) := by
  rw [← colRange_isSome Record.numberOfEngines t, ← colRange_isSome Record.yearOfManufacture t,
    ← colRange_isSome Record.aircraftAge t, ← colRange_isSome Record.weight t]
  unfold defaultBounds
  cases he : colRange Record.numberOfEngines t <;>
  cases hy : colRange Record.yearOfManufacture t <;>
  cases ha : colRange Record.aircraftAge t <;>
  cases hw <;>
  cases hwr : colRange Record.weight t <;>
  simp

theorem mergeRow_preserved (owners : List OwnerRow) (c : CurrRow) :
    ∃ m ∈ mergeRow owners c, m.curr = c := by
  unfold mergeRow
  cases h : owners.filter (fun o => o.registrationMark == c.mark) with
  | nil => exact ⟨⟨c, none⟩, List.mem_singleton_self _, rfl⟩
  | cons o os =>
    exact ⟨⟨c, some o⟩, List.mem_map.mpr ⟨o, List.mem_cons_self o os, rfl⟩, rfl⟩

/-- C6: the loader's merge is left-outer on the registration mark: every
current-registration row appears in the joined table, and a row whose
mark matches no owner row is joined to no owner, so all its owner-derived
fields are missing. -/
theorem mergeLeft_preserves_curr (curr : List CurrRow) (owners : List OwnerRow)
    (c : CurrRow) (hc : c ∈ curr) :
    (∃ m ∈ mergeLeft curr owners, m.curr = c) ∧
    ((∀ o ∈ owners, o.registrationMark ≠ c.mark) →
      MergedRow.mk c none ∈ mergeLeft curr owners ∧
        ∀ name, (MergedRow.mk c none).ownerField name = none) := by
  constructor
  · obtain ⟨m, hm, hmc⟩ := mergeRow_preserved owners c
    exact ⟨m, List.mem_flatMap.mpr ⟨c, hc, hm⟩, hmc⟩
  · intro hno
    have hfil : owners.filter (fun o => o.registrationMark == c.mark) = [] := by
      rw [List.filter_eq_nil_iff]
      intro o ho
      simp [hno o ho]
    refine ⟨List.mem_flatMap.mpr ⟨c, hc, ?_⟩, fun _ => rfl⟩
    unfold mergeRow
    rw [hfil]
    exact List.mem_singleton_self _

/-- Witness for C6, the spec's scenario: owner table with mark
`C-ABCD`, current table with marks `C-ABCD` and `C-WXYZ`; the join has
two rows, the second owner-less with missing owner-derived fields. -/
theorem mergeLeft_preserves_curr_witness :
    mergeLeft [currABCD, currWXYZ] [ownerABCD] =
      [⟨currABCD, some ownerABCD⟩, ⟨currWXYZ, none⟩] ∧
    (∃ m ∈ mergeLeft [currABCD, currWXYZ] [ownerABCD], m.curr = currWXYZ) ∧
    MergedRow.mk currWXYZ none ∈ mergeLeft [currABCD, currWXYZ] [ownerABCD] ∧
    (MergedRow.mk currWXYZ none).ownerField "Type of Owner" = none :=
  ⟨by decide,
   (mergeLeft_preserves_curr [currABCD, currWXYZ] [ownerABCD] currWXYZ (by decide)).1,
   ((mergeLeft_preserves_curr [currABCD, currWXYZ] [ownerABCD] currWXYZ
      (by decide)).2 (by decide)).1,
   rfl⟩

theorem noNullLit_replaceNull (r : Record) : noNullLit (replaceNull r) = true := by
  have h : ∀ v : Option String, (normNull v != some "null") = true := by
    intro v
    cases v with
    | none => rfl
    | some s =>
      unfold normNull
      by_cases hs : s = "null"
      · simp [hs]
      · simp [hs]
  unfold noNullLit replaceNull
  simp [h]

/-- C8 (amended): the `"null"` normalization runs only after every
filter predicate (the pipeline is: filter on the original cells, then
rewrite), but it is applied to the single `flt` value that ALL downstream
consumers read — chart aggregations as much as the display path — so no
consumer of the filtered table can observe a literal `"null"`. -/
theorem replace_null_post_filter_all_consumers (t : List Record) (s : FilterSpec) :
    pipeline t s = (t.filter (passAll s)).map replaceNull ∧
      (pipeline t s).all noNullLit = true := by
  constructor
  · unfold pipeline
    rw [applyFilters_eq_filter]
  · unfold pipeline
    rw [List.all_eq_true]
    intro r hr
    obtain ⟨r0, _, rfl⟩ := List.mem_map.mp hr
    exact noNullLit_replaceNull r0

/-- Counterexample to C8 as stated: the claim says the normalization
affects only the display/export path, yet the Top-10 manufacturer
aggregation (line 155) reads the normalized `flt` of line 139: a row
whose manufacturer cell is the literal `"null"` survives the filters but
is invisible to `value_counts`, while the unnormalized filter output
would count it. -/
theorem replace_null_seen_by_aggregations_cex :
    manuChart (pipeline tNull sWide) = [] ∧
      manuChart (applyFilters tNull sWide) = [("null", 1)] ∧
      (dashboardOf allOn tNull sWide).topManu = some [] := by decide

/-- C9: on an empty filtered table every aggregation returns a
well-formed empty summary (a total function returning `[]`, never an
error), and every chart output is omitted (`none`), whatever the
checkbox states. -/
theorem empty_table_aggregations (tog : ChartToggles) :
    dashboard tog [] = ⟨none, none, none, none, none, none, none, none⟩ ∧
      manuChart [] = [] ∧ modelChart [] = [] ∧ provChart [] = [] ∧
      distribution Record.aircraftCategory [] = [] ∧
      distribution Record.typeOfOwner [] = [] ∧
      ageHistData [] = [] ∧ groupCountYear [] = [] ∧
      groupCountYearOwner [] = [] := by
  have hg1 : groupCountYear ([] : List Record) = [] := rfl
  have hg2 : groupCountYearOwner ([] : List Record) = [] := rfl
  refine ⟨?_, rfl, rfl, rfl, rfl, rfl, rfl, rfl, rfl⟩
  unfold dashboard
  simp [hg1, hg2]

theorem mem_dedupFirst {α : Type} [BEq α] [LawfulBEq α] (v : α) :
    ∀ (l : List α), v ∈ dedupFirst l ↔ v ∈ l
  | [] => Iff.rfl
  | x :: xs => by
    simp only [dedupFirst, List.mem_cons, List.mem_filter, mem_dedupFirst v xs,
      Bool.not_eq_true', beq_eq_false_iff_ne]
    constructor
    · rintro (rfl | ⟨hv, _⟩)
      · exact Or.inl rfl
      · exact Or.inr hv
    · rintro (rfl | hv)
      · exact Or.inl rfl
      · by_cases hvx : v = x
        · exact Or.inl hvx
        · exact Or.inr ⟨hv, hvx⟩

theorem dedupFirst_nodup {α : Type} [BEq α] [LawfulBEq α] :
    ∀ (l : List α), (dedupFirst l).Nodup
  | [] => List.nodup_nil
  | x :: xs => by
    rw [dedupFirst, List.nodup_cons]
    constructor
    · intro hmem
      have := (List.mem_filter.mp hmem).2
      simp at this
    · exact (dedupFirst_nodup xs).filter _

theorem le_sum_of_mem {l : List Nat} {a : Nat} (h : a ∈ l) : a ≤ l.sum := by
  induction l with
  | nil => exact absurd h (List.not_mem_nil a)
  | cons b bs ih =>
    rcases List.mem_cons.mp h with rfl | h'
    · simp [List.sum_cons]
    · calc a ≤ bs.sum := ih h'
        _ ≤ b + bs.sum := Nat.le_add_left _ _
        _ = (b :: bs).sum := (List.sum_cons).symm

theorem sum_map_filter_ne {α : Type} [BEq α] [LawfulBEq α] [DecidableEq α]
    (f : α → Nat) (x : α) :
    ∀ (d : List α), d.Nodup →
      ((d.filter (fun y => !(y == x))).map f).sum =
        (d.map f).sum - (if x ∈ d then f x else 0)
  | [], _ => by simp
  | a :: d', hnd => by
    obtain ⟨ha, hnd'⟩ := List.nodup_cons.mp hnd
    have ih := sum_map_filter_ne f x d' hnd'
    by_cases hax : a = x
    · subst hax
      have hfil : (a :: d').filter (fun y => !(y == a)) = d' := by
        simp only [List.filter_cons, beq_self_eq_true, Bool.not_true, Bool.false_eq_true,
          if_false]
        rw [List.filter_eq_self]
        intro y hy
        simp only [Bool.not_eq_eq_eq_not, Bool.not_true, beq_eq_false_iff_ne]
        exact fun h => ha (h ▸ hy)
      rw [hfil, if_pos (List.mem_cons_self a d'), List.map_cons, List.sum_cons]
      omega
    · have hfil : (a :: d').filter (fun y => !(y == x)) =
          a :: d'.filter (fun y => !(y == x)) := by
        simp only [List.filter_cons]
        rw [if_pos]
        simp [hax]
      rw [hfil, List.map_cons, List.sum_cons, ih, List.map_cons, List.sum_cons]
      by_cases hxd : x ∈ d'
      · have hfle : f x ≤ (d'.map f).sum := le_sum_of_mem (List.mem_map_of_mem f hxd)
        have hmem : x ∈ a :: d' := List.mem_cons_of_mem a hxd
        rw [if_pos hxd, if_pos hmem]
        omega
      · have hmem : x ∉ a :: d' := by
          intro h
          rcases List.mem_cons.mp h with h' | h'
          · exact hax h'.symm
          · exact hxd h'
        rw [if_neg hxd, if_neg hmem]
        omega

theorem sum_counts_dedupFirst {α : Type} [BEq α] [LawfulBEq α] [DecidableEq α] :
    ∀ (l : List α), ((dedupFirst l).map (fun v => l.count v)).sum = l.length
  | [] => rfl
  | x :: xs => by
    have hrec := sum_counts_dedupFirst xs
    rw [dedupFirst, List.map_cons, List.sum_cons]
    have hcx : (x :: xs).count x = xs.count x + 1 := List.count_cons_self x xs
    have hmap : ((dedupFirst xs).filter (fun y => !(y == x))).map
          (fun v => (x :: xs).count v) =
        ((dedupFirst xs).filter (fun y => !(y == x))).map (fun v => xs.count v) := by
      apply List.map_congr_left
      intro v hv
      have hvx : v ≠ x := by
        have := (List.mem_filter.mp hv).2
        simpa using this
      exact List.count_cons_of_ne hvx xs
    rw [hcx, hmap,
      sum_map_filter_ne (fun v => xs.count v) x (dedupFirst xs) (dedupFirst_nodup xs),
      hrec]
    by_cases hx : x ∈ xs
    · have hmem : x ∈ dedupFirst xs := (mem_dedupFirst x xs).mpr hx
      have hle : xs.count x ≤ xs.length := List.count_le_length x xs
      rw [if_pos hmem]
      simp only [List.length_cons]
      omega
    · have hmem : x ∉ dedupFirst xs := fun h => hx ((mem_dedupFirst x xs).mp h)
      have hc0 : xs.count x = 0 := List.count_eq_zero.mpr hx
      rw [if_neg hmem]
      simp only [List.length_cons]
      omega

theorem pairwise_tieOrd_orderedInsert (idx : String × Nat → Nat) (a : String × Nat) :
    ∀ (s : List (String × Nat)), s.Sorted cntGe → s.Pairwise (tieOrd idx) →
      (∀ x ∈ s, idx a < idx x) →
      (List.orderedInsert cntGe a s).Pairwise (tieOrd idx)
  | [], _, _, _ => List.pairwise_singleton _ _
  | b :: s', hsort, hpw, hidx => by
    unfold List.orderedInsert
    by_cases hab : cntGe a b
    · rw [if_pos hab]
      refine List.Pairwise.cons ?_ hpw
      intro x hx
      have hxle : x.2 ≤ a.2 := by
        rcases List.mem_cons.mp hx with rfl | hx'
        · exact hab
        · exact le_trans (List.rel_of_sorted_cons hsort x hx') hab
      rcases lt_or_eq_of_le hxle with hlt | heq
      · exact Or.inl hlt
      · exact Or.inr ⟨heq.symm, hidx x hx⟩
    · rw [if_neg hab]
      have hba : a.2 < b.2 := lt_of_not_le hab
      obtain ⟨hbfst, hpw'⟩ := List.pairwise_cons.mp hpw
      refine List.Pairwise.cons ?_
        (pairwise_tieOrd_orderedInsert idx a s' hsort.of_cons hpw'
          (fun x hx => hidx x (List.mem_cons_of_mem b hx)))
      intro x hx
      rcases (List.mem_orderedInsert cntGe).mp hx with rfl | hx'
      · exact Or.inl hba
      · exact hbfst x hx'

theorem pairwise_tieOrd_insertionSort (idx : String × Nat → Nat) :
    ∀ (p : List (String × Nat)), p.Pairwise (fun x y => idx x < idx y) →
      (List.insertionSort cntGe p).Pairwise (tieOrd idx)
  | [], _ => List.Pairwise.nil
  | a :: p', hp => by
    obtain ⟨ha, hp'⟩ := List.pairwise_cons.mp hp
    have ih := pairwise_tieOrd_insertionSort idx p' hp'
    show (List.orderedInsert cntGe a (List.insertionSort cntGe p')).Pairwise (tieOrd idx)
    refine pairwise_tieOrd_orderedInsert idx a _
      (List.sorted_insertionSort cntGe p') ih ?_
    intro x hx
    exact ha x ((List.mem_insertionSort cntGe).mp hx)

theorem pairwise_indexOf_of_nodup {α : Type} [DecidableEq α] :
    ∀ (d : List α), d.Nodup → d.Pairwise (fun u v => d.indexOf u < d.indexOf v)
  | [], _ => List.Pairwise.nil
  | a :: d', hnd => by
    obtain ⟨ha, hnd'⟩ := List.nodup_cons.mp hnd
    refine List.Pairwise.cons ?_ ?_
    · intro v hv
      have hva : a ≠ v := fun h => ha (h ▸ hv)
      rw [List.indexOf_cons_self, List.indexOf_cons_ne _ hva]
      exact Nat.succ_pos _
    · have ih := pairwise_indexOf_of_nodup d' hnd'
      refine ih.imp_of_mem ?_
      intro u v hu hv huv
      have hau : a ≠ u := fun h => ha (h ▸ hu)
      have hav : a ≠ v := fun h => ha (h ▸ hv)
      rw [List.indexOf_cons_ne _ hau, List.indexOf_cons_ne _ hav]
      exact Nat.succ_lt_succ huv

theorem sublist_sum_le {l₁ l₂ : List Nat} (h : l₁.Sublist l₂) : l₁.sum ≤ l₂.sum := by
  induction h with
  | slnil => exact le_refl 0
  | cons a _ ih =>
    rw [List.sum_cons]
    exact le_trans ih (Nat.le_add_left _ _)
  | cons₂ a _ ih =>
    rw [List.sum_cons, List.sum_cons]
    exact Nat.add_le_add_left ih a

theorem mem_valueCounts {vals : List String} {pr : String × Nat}
    (h : pr ∈ valueCounts vals) : pr.1 ∈ vals ∧ pr.2 = vals.count pr.1 := by
  unfold valueCounts at h
  have h2 := (List.mem_insertionSort cntGe).mp h
  obtain ⟨v, hv, rfl⟩ := List.mem_map.mp h2
  exact ⟨(mem_dedupFirst v vals).mp hv, rfl⟩

theorem valueCounts_pairwise (vals : List String) :
    (valueCounts vals).Pairwise (tieOrd (fun pr => (dedupFirst vals).indexOf pr.1)) := by
  unfold valueCounts
  refine pairwise_tieOrd_insertionSort _ _ ?_
  rw [List.pairwise_map]
  exact pairwise_indexOf_of_nodup (dedupFirst vals) (dedupFirst_nodup vals)

theorem valueCounts_sum (vals : List String) :
    ((valueCounts vals).map Prod.snd).sum = vals.length := by
  unfold valueCounts
  rw [((List.perm_insertionSort cntGe _).map Prod.snd).sum_eq, List.map_map]
  exact sum_counts_dedupFirst vals

theorem topN_good (vals : List String) : topTenGood vals (topN 10 vals) := by
  have hpw := valueCounts_pairwise vals
  refine ⟨?_, ?_, ?_, ?_, ?_⟩
  · unfold topN
    rw [List.length_take]
    unfold valueCounts
    rw [List.length_insertionSort, List.length_map]
  · intro pr hpr
    exact mem_valueCounts ((List.take_sublist 10 _).subset hpr)
  · exact hpw.sublist (List.take_sublist 10 _)
  · intro b hb a ha
    have hsplit := (List.take_append_drop 10 (valueCounts vals)) ▸ hpw
    have h3 := (List.pairwise_append.mp hsplit).2.2
    rcases h3 a ha b hb with hlt | ⟨heq, _⟩
    · exact le_of_lt hlt
    · exact le_of_eq heq.symm
  · calc ((topN 10 vals).map Prod.snd).sum
        ≤ ((valueCounts vals).map Prod.snd).sum :=
          sublist_sum_le ((List.take_sublist 10 _).map Prod.snd)
      _ = vals.length := valueCounts_sum vals

/-- C4: for every filtered table, the Top-10 manufacturer and Top-10
model leaderboards satisfy the leaderboard contract (`topTenGood`):
min 10 #distinct rows — exactly 10 when the field has at least 10
distinct values — genuine (value, count) pairs, count-descending order
with ties in first-encountered order, every excluded value at most as
frequent as every included one; and the returned counts sum to at most
the record count of the table. -/
theorem topTen_leaderboards (flt : List Record) :
    topTenGood (flt.filterMap Record.manufacturerName) (manuChart flt) ∧
    ((manuChart flt).map Prod.snd).sum ≤ flt.length ∧
    topTenGood (flt.filterMap Record.modelName) (modelChart flt) ∧
    ((modelChart flt).map Prod.snd).sum ≤ flt.length := by
  have h1 := topN_good (flt.filterMap Record.manufacturerName)
  have h2 := topN_good (flt.filterMap Record.modelName)
  refine ⟨h1, ?_, h2, ?_⟩
  · exact le_trans h1.2.2.2.2 (List.length_filterMap_le _ _)
  · exact le_trans h2.2.2.2.2 (List.length_filterMap_le _ _)

end AircraftDashboard
